import Mathlib

/-!
Verification of the expense-tracker analytics and export engine
(`src/utils/analytics.ts`) against its specification.

The TypeScript source is shallowly embedded: JS numbers are modelled as
exact rationals (`ℚ`), strings as Lean `String`, `Record`/`Map` objects as
association lists in insertion order, and the stable `Array.prototype.sort`
as a stable insertion sort. Fallible operations return `Except`.
-/

/-! ### Characters and small string helpers (JS string semantics) -/

/-- The comma character. -/
def commaChar : Char := Char.ofNat 44

/-- The double-quote character. -/
def quoteChar : Char := Char.ofNat 34

/-- The line-feed character. -/
def nlChar : Char := Char.ofNat 10

/-- The full-stop character. -/
def dotChar : Char := Char.ofNat 46

/-- The hyphen-minus character. -/
def minusChar : Char := Char.ofNat 45

/-- ASCII lower-casing of one character, as `String.prototype.toLowerCase`
acts on ASCII input. -/
def lowerChar (c : Char) : Char :=
  if 65 ≤ c.toNat ∧ c.toNat ≤ 90 then Char.ofNat (c.toNat + 32) else c

/-- ASCII lower-casing of a string. -/
def lowerStr (s : String) : String := String.mk (s.data.map lowerChar)

/-- Whitespace test used by `String.prototype.trim` (space, tab, LF, CR). -/
def isSpaceChar (c : Char) : Bool :=
  c.toNat = 32 || c.toNat = 9 || c.toNat = 10 || c.toNat = 13

/-- `String.prototype.trim`: strip leading and trailing whitespace. -/
def jsTrim (s : String) : String :=
  String.mk (((s.data.dropWhile isSpaceChar).reverse.dropWhile isSpaceChar).reverse)

/-- Does the second list start with the first? -/
def prefixMatch : List Char → List Char → Bool
  | [], _ => true
  | _ :: _, [] => false
  | a :: n, b :: h => a == b && prefixMatch n h

/-- Does `hay` contain `needle` as a contiguous run?  (`String.prototype.includes`.) -/
def hasSubstr (needle : List Char) : List Char → Bool
  | [] => needle.isEmpty
  | b :: h => prefixMatch needle (b :: h) || hasSubstr needle h

/-- `hay.includes(needle)` on strings. -/
def jsIncludes (hay needle : String) : Bool := hasSubstr needle.data hay.data

/-- Lexicographic (code-point) order on character lists, as JS compares
strings. -/
def charsLt : List Char → List Char → Bool
  | [], [] => false
  | [], _ :: _ => true
  | _ :: _, [] => false
  | a :: s, b :: t =>
    if a.toNat < b.toNat then true
    else if b.toNat < a.toNat then false
    else charsLt s t

/-- JS string `<`. For ISO date strings this is the date order the source
relies on (spec section 3: dates are compared as strings). -/
def strLt (a b : String) : Bool := charsLt a.data b.data

/-- JS string `<=`. -/
def strLe (a b : String) : Bool := !(strLt b a)

/-! ### JS number-to-string on decimal values -/

/-- The decimal digit character for `n % 10`. -/
def digitChar (n : Nat) : Char := Char.ofNat (48 + n % 10)

/-- Accumulator loop producing the base-10 digits of a natural number. -/
def natToCharsAux : Nat → Nat → List Char → List Char
  | 0, _, acc => acc
  | fuel + 1, n, acc =>
    if n < 10 then digitChar n :: acc
    else natToCharsAux fuel (n / 10) (digitChar n :: acc)

/-- Base-10 digits of a natural number, most significant first. -/
def natToChars (n : Nat) : List Char := natToCharsAux (n + 1) n []

/-- Character list of `Number.prototype.toString` for a rational whose
denominator divides a power of ten (every finite decimal entered as a JS
number is of this form): integer part, then `.` and the fractional digits
with no trailing zero.  Non-decimal rationals do not arise as JS values;
for them the integer truncation is produced. -/
def ratToChars (q : ℚ) : List Char :=
  let sign : List Char := if q.num < 0 then [minusChar] else []
  let m := q.num.natAbs
  if q.den = 1 then sign ++ natToChars m
  else
    match (List.range 31).find? (fun k => decide (q.den ∣ 10 ^ k)) with
    | some k =>
      let ds := natToChars (m * 10 ^ k / q.den)
      let padded := List.replicate (k + 1 - ds.length) (digitChar 0) ++ ds
      sign ++ padded.take (padded.length - k) ++ dotChar :: padded.drop (padded.length - k)
    | none => sign ++ natToChars (m / q.den)

/-- `Number.prototype.toString` as a Lean `String`. -/
def ratToString (q : ℚ) : String := String.mk (ratToChars q)

/-! ### The data model (`src/types/expense.ts`) -/

/-- One expense record.  `amount` is a JS number, modelled as an exact
rational; all other fields are strings (`category` is free-form: custom
categories are user-definable). -/
structure Expense where
  id : String
  date : String
  amount : ℚ
  category : String
  description : String
  createdAt : String
  updatedAt : String
deriving DecidableEq

/-- One entry of `ExpenseSummary.categoryBreakdown`. -/
structure BreakdownEntry where
  category : String
  amount : ℚ
  percentage : ℚ
deriving DecidableEq

/-- The `topCategory` field of `ExpenseSummary`. -/
structure TopCategory where
  category : String
  amount : ℚ
deriving DecidableEq

/-- The summary returned by `calculateSummary`. -/
structure ExpenseSummary where
  totalSpending : ℚ
  monthlySpending : ℚ
  topCategory : Option TopCategory
  categoryBreakdown : List BreakdownEntry
deriving DecidableEq

/-- One entry of `VendorData.categoryBreakdown`. -/
structure VendorCatEntry where
  category : String
  amount : ℚ
  count : Nat
deriving DecidableEq

/-- Per-vendor aggregate produced by `analyzeVendors`. -/
structure VendorData where
  vendor : String
  totalAmount : ℚ
  transactionCount : Nat
  lastTransactionDate : String
  primaryCategory : String
  categoryBreakdown : List VendorCatEntry
deriving DecidableEq

/-- Filter criteria for `filterExpenses`.  Each field is optional in the
source; a `none` or empty string is falsy in the JS truthiness tests. -/
structure ExpenseFilters where
  startDate : Option String
  endDate : Option String
  category : Option String
  searchQuery : Option String
deriving DecidableEq

/-! ### Stable sorting (JS `Array.prototype.sort` is stable) -/

/-- Insert `a` in front of the first element `b` with `le a b`. -/
def ordInsert {α : Type} (le : α → α → Bool) (a : α) : List α → List α
  | [] => [a]
  | b :: l => if le a b then a :: b :: l else b :: ordInsert le a l

/-- Stable insertion sort: the unique stable sort, hence the result of the
(stable) JS `Array.prototype.sort` under the comparator encoded by `le`. -/
def stableSort {α : Type} (le : α → α → Bool) (l : List α) : List α :=
  l.foldr (ordInsert le) []

theorem ordInsert_perm {α : Type} (le : α → α → Bool) (a : α) (l : List α) :
    (ordInsert le a l).Perm (a :: l) := by
  induction l with
  | nil => simp [ordInsert]
  | cons b t ih =>
    by_cases h : le a b = true
    · simp [ordInsert, h]
    · simp only [ordInsert, h]
      simp only [Bool.false_eq_true, if_false]
      exact (ih.cons b).trans (List.Perm.swap a b t)

theorem stableSort_perm {α : Type} (le : α → α → Bool) (l : List α) :
    (stableSort le l).Perm l := by
  induction l with
  | nil => simp [stableSort]
  | cons a t ih =>
    have : stableSort le (a :: t) = ordInsert le a (stableSort le t) := rfl
    rw [this]
    exact (ordInsert_perm le a (stableSort le t)).trans (ih.cons a)

theorem mem_ordInsert {α : Type} (le : α → α → Bool) (a x : α) (l : List α) :
    x ∈ ordInsert le a l ↔ x = a ∨ x ∈ l := by
  have h := (ordInsert_perm le a l).mem_iff (a := x)
  simpa using h

theorem ordInsert_pairwise {α : Type} (le : α → α → Bool)
    (hTotal : ∀ a b, le a b = true ∨ le b a = true)
    (hTrans : ∀ a b c, le a b = true → le b c = true → le a c = true)
    (a : α) (l : List α) (hl : l.Pairwise (fun x y => le x y = true)) :
    (ordInsert le a l).Pairwise (fun x y => le x y = true) := by
  induction l with
  | nil => simp [ordInsert]
  | cons b t ih =>
    rcases List.pairwise_cons.1 hl with ⟨hb, ht⟩
    by_cases h : le a b = true
    · simp only [ordInsert, h, if_true]
      refine List.pairwise_cons.2 ⟨?_, hl⟩
      intro x hx
      rcases List.mem_cons.1 hx with hxb | hx
      · exact hxb ▸ h
      · exact hTrans a b x h (hb x hx)
    · simp only [ordInsert, h]
      simp only [Bool.false_eq_true, if_false]
      refine List.pairwise_cons.2 ⟨?_, ih ht⟩
      intro x hx
      rcases (mem_ordInsert le a x t).1 hx with hxa | hx
      · subst hxa
        rcases hTotal x b with hab | hba
        · exact absurd hab h
        · exact hba
      · exact hb x hx

theorem stableSort_pairwise {α : Type} (le : α → α → Bool)
    (hTotal : ∀ a b, le a b = true ∨ le b a = true)
    (hTrans : ∀ a b c, le a b = true → le b c = true → le a c = true)
    (l : List α) :
    (stableSort le l).Pairwise (fun x y => le x y = true) := by
  induction l with
  | nil => simp [stableSort]
  | cons a t ih =>
    exact ordInsert_pairwise le hTotal hTrans a (stableSort le t) ih

/-! ### Association lists in insertion order (JS `Record` / `Map`) -/

/-- Update the value at key `k` in place, or append `(k, f b0)` when the key
is absent: the semantics of `obj[k] = f(obj[k] || b0)` on a JS object and of
`map.set(k, f(map.get(k) || b0))` on a JS `Map`, both of which preserve
insertion order. -/
def upsert {β : Type} (k : String) (f : β → β) (b0 : β) : List (String × β) → List (String × β)
  | [] => [(k, f b0)]
  | p :: t => if p.1 = k then (p.1, f p.2) :: t else p :: upsert k f b0 t

theorem upsert_sum {β : Type} (g : β → ℚ) (k : String) (f : β → β) (b0 : β) (c : ℚ)
    (hf : ∀ v, g (f v) = g v + c) (hb0 : g b0 = 0) (l : List (String × β)) :
    ((upsert k f b0 l).map (fun p => g p.2)).sum = (l.map (fun p => g p.2)).sum + c := by
  induction l with
  | nil => simp [upsert, hf, hb0]
  | cons p t ih =>
    by_cases h : p.1 = k
    · simp [upsert, h, hf]
      ring
    · simp [upsert, h, ih]
      ring

theorem upsert_ne_nil {β : Type} (k : String) (f : β → β) (b0 : β) (l : List (String × β)) :
    upsert k f b0 l ≠ [] := by
  cases l with
  | nil => simp [upsert]
  | cons p t =>
    by_cases h : p.1 = k <;> simp [upsert, h]

/-- Sum of the amounts of a record list, as the source's
`reduce((sum, exp) => sum + exp.amount, 0)`. -/
def sumAmounts (es : List Expense) : ℚ := es.foldl (fun s e => s + e.amount) 0

theorem foldl_add_amount (es : List Expense) :
    ∀ a : ℚ, es.foldl (fun s e => s + e.amount) a = a + (es.map (·.amount)).sum := by
  induction es with
  | nil => intro a; simp
  | cons e t ih =>
    intro a
    simp only [List.foldl_cons, List.map_cons, List.sum_cons, ih]
    ring

theorem sumAmounts_eq (es : List Expense) : sumAmounts es = (es.map (·.amount)).sum := by
  simpa [sumAmounts] using foldl_add_amount es 0

theorem foldl_upsert_sum {β : Type} (g : β → ℚ) (key : Expense → String)
    (f : Expense → β → β) (b0 : β)
    (hf : ∀ e v, g (f e v) = g v + e.amount) (hb0 : g b0 = 0) (es : List Expense) :
    ∀ acc : List (String × β),
      ((es.foldl (fun a e => upsert (key e) (f e) b0 a) acc).map (fun p => g p.2)).sum
        = (acc.map (fun p => g p.2)).sum + (es.map (·.amount)).sum := by
  induction es with
  | nil => intro acc; simp
  | cons e t ih =>
    intro acc
    simp only [List.foldl_cons, List.map_cons, List.sum_cons, ih]
    rw [upsert_sum g (key e) (f e) b0 e.amount (hf e) hb0 acc]
    ring

/-! ### `calculateSummary` (`src/utils/analytics.ts`, lines 4-48) -/

/-- `calculateSummary`.  The test "expense date falls in the current
calendar month", which the source evaluates with `Date` objects built from
the caller's clock, is passed in as the predicate `inMonth`. -/
def calculateSummary (inMonth : String → Bool) (expenses : List Expense) : ExpenseSummary :=
  let totalSpending : ℚ := expenses.foldl (fun s e => s + e.amount) 0
  let monthlySpending : ℚ :=
    (expenses.filter (fun e => inMonth e.date)).foldl (fun s e => s + e.amount) 0
  let categoryTotals : List (String × ℚ) :=
    expenses.foldl (fun acc e => upsert e.category (fun v => v + e.amount) 0 acc) []
  let categoryBreakdown : List BreakdownEntry :=
    stableSort (fun a b => decide (b.amount ≤ a.amount))
      (categoryTotals.map (fun p =>
        BreakdownEntry.mk p.1 p.2 (if 0 < totalSpending then p.2 / totalSpending * 100 else 0)))
  let topCategory : Option TopCategory :=
    match categoryBreakdown with
    | [] => none
    | b :: _ => some (TopCategory.mk b.category b.amount)
  ExpenseSummary.mk totalSpending monthlySpending topCategory categoryBreakdown

/-! ### `filterExpenses` (`src/utils/analytics.ts`, lines 50-89) -/

/-- JS truthiness of an optional string: `undefined` and `""` are falsy. -/
def truthy : Option String → Bool
  | none => false
  | some s => !(s == "")

/-- The search-query criterion of `filterExpenses` (lines 79-85): when the
query is truthy, a case-insensitive substring match against the
description, the category name, or the stringified amount. -/
def searchPasses (q : Option String) (e : Expense) : Bool :=
  if truthy q then
    let query := lowerStr (q.getD "")
    let matchesDescription := jsIncludes (lowerStr e.description) query
    let matchesCategory := jsIncludes (lowerStr e.category) query
    let matchesAmount := jsIncludes (ratToString e.amount) query
    matchesDescription || matchesCategory || matchesAmount
  else true

/-- The whole record predicate of `filterExpenses`: date lower and upper
bound (when truthy), exact category match (when truthy and not the `All`
sentinel), and the search-query criterion. -/
def passesFilters (filters : ExpenseFilters) (e : Expense) : Bool :=
  (if truthy filters.startDate then !(strLt e.date (filters.startDate.getD "")) else true) &&
  (if truthy filters.endDate then !(strLt (filters.endDate.getD "") e.date) else true) &&
  (if truthy filters.category && !(filters.category.getD "" == "All")
    then filters.category.getD "" == e.category else true) &&
  searchPasses filters.searchQuery e

/-- `filterExpenses`. -/
def filterExpenses (expenses : List Expense) (filters : ExpenseFilters) : List Expense :=
  expenses.filter (passesFilters filters)

/-! ### `exportToCSV` (`src/utils/analytics.ts`, lines 91-106) -/

/-- Double every double quote, as `description.replace(/"/g, '""')`. -/
def escChars : List Char → List Char
  | [] => []
  | c :: t => if c = quoteChar then quoteChar :: quoteChar :: escChars t else c :: escChars t

/-- The four cells of one CSV row: date, category, stringified amount, and
the description wrapped in double quotes with internal quotes doubled. -/
def csvCells (e : Expense) : List String :=
  [e.date, e.category, ratToString e.amount,
    String.mk (quoteChar :: escChars e.description.data ++ [quoteChar])]

/-- `Array.prototype.join` with a separator. -/
def joinSep (sep : String) : List String → String
  | [] => ""
  | [s] => s
  | s :: t => s ++ sep ++ joinSep sep t

/-- The CSV header row. -/
def csvHeader : String := joinSep (String.mk [commaChar]) ["Date", "Category", "Amount", "Description"]

/-- `exportToCSV`: the header row and one comma-joined row per record,
joined by line feeds. -/
def exportToCSV (expenses : List Expense) : String :=
  joinSep (String.mk [nlChar])
    (csvHeader :: expenses.map (fun e => joinSep (String.mk [commaChar]) (csvCells e)))

/-! ### `analyzeVendors` (`src/utils/analytics.ts` export module, lines 128-206) -/

/-- `extractVendorName`: the trimmed description, or the `Unknown Vendor`
sentinel when it trims to the empty string. -/
def extractVendorName (description : String) : String :=
  let normalized := jsTrim description
  if normalized = "" then "Unknown Vendor" else normalized

/-- The vendor grouping pass: a JS `Map` from vendor name to the group's
expenses in encounter order. -/
def vendorGroups (expenses : List Expense) : List (String × List Expense) :=
  expenses.foldl
    (fun acc e => upsert (extractVendorName e.description) (fun g => g ++ [e]) [] acc) []

/-- The per-vendor category accumulation: a JS `Map` from category to
(amount, count). -/
def vendorCatTotals (group : List Expense) : List (String × (ℚ × Nat)) :=
  group.foldl
    (fun acc e =>
      upsert e.category (fun p => (p.1 + e.amount, p.2 + 1)) ((0 : ℚ), (0 : Nat)) acc) []

/-- The `VendorData` built for one group.  Note the in-place
`categoryBreakdown.sort((a, b) => b.count - a.count)` used to pick
`primaryCategory` mutates the array that was just sorted by amount, so the
breakdown that is pushed is the count-sorted one. -/
def mkVendorData (vendor : String) (group : List Expense) : VendorData :=
  let totalAmount : ℚ := group.foldl (fun s e => s + e.amount) 0
  let transactionCount := group.length
  let lastTransactionDate :=
    ((stableSort (fun a b => strLe a b) (group.map (·.date))).reverse).headD ""
  let categoryBreakdown : List VendorCatEntry :=
    stableSort (fun a b => decide (b.amount ≤ a.amount))
      ((vendorCatTotals group).map (fun p => VendorCatEntry.mk p.1 p.2.1 p.2.2))
  let sortedByCount : List VendorCatEntry :=
    stableSort (fun a b => decide (b.count ≤ a.count)) categoryBreakdown
  let primaryCategory :=
    match sortedByCount with
    | [] => "Other"
    | b :: _ => b.category
  VendorData.mk vendor totalAmount transactionCount lastTransactionDate
    primaryCategory sortedByCount

/-- `analyzeVendors`: group by vendor, build each `VendorData`, and sort
the result by `totalAmount`, highest first. -/
def analyzeVendors (expenses : List Expense) : List VendorData :=
  stableSort (fun a b => decide (b.totalAmount ≤ a.totalAmount))
    ((vendorGroups expenses).map (fun p => mkVendorData p.1 p.2))

/-! ### `performExport` (`src/utils/analytics.ts` export module, lines 562-603) -/

/-- The side effect a successful `performExport` issues before resolving:
a file download (CSV and JSON) or opening the print-ready window (PDF). -/
inductive ExportEffect where
  | download (content filename mimeType : String)
  | openWindow (html : String)
deriving DecidableEq

/-- `performExport`: dispatch on the format string, build the artifact and
issue the side effect, or reject with a descriptive error on any other
format.  The JSON and PDF serializers (whose output embeds the caller's
clock) are passed in as `toJSON` and `toPDF`; the dispatch does not depend
on their output. -/
def performExport (toJSON toPDF : List Expense → String)
    (expenses : List Expense) (format : String) (filename : String) :
    Except String ExportEffect :=
  if format = "csv" then
    Except.ok (ExportEffect.download (exportToCSV expenses) (filename ++ ".csv")
      "text/csv;charset=utf-8;")
  else if format = "json" then
    Except.ok (ExportEffect.download (toJSON expenses) (filename ++ ".json")
      "application/json;charset=utf-8;")
  else if format = "pdf" then
    Except.ok (ExportEffect.openWindow (toPDF expenses))
  else
    Except.error ("Unsupported format: " ++ format)

/-! ### Sums are invariant under the stable sort -/

theorem stableSort_map_sum {α : Type} (le : α → α → Bool) (g : α → ℚ) (l : List α) :
    ((stableSort le l).map g).sum = (l.map g).sum :=
  ((stableSort_perm le l).map g).sum_eq

theorem map_div_mul_sum (l : List ℚ) (T : ℚ) :
    (l.map (fun x => x / T * 100)).sum = l.sum / T * 100 := by
  induction l with
  | nil => simp
  | cons a t ih =>
    simp only [List.map_cons, List.sum_cons, ih]
    ring

/-! ### Claim C1 -/

theorem calculateSummary_breakdown_amounts (inMonth : String → Bool) (es : List Expense) :
    ((calculateSummary inMonth es).categoryBreakdown.map (fun b => b.amount)).sum
      = (calculateSummary inMonth es).totalSpending := by
  show ((stableSort (fun a b => decide (b.amount ≤ a.amount))
      ((es.foldl (fun acc e => upsert e.category (fun v => v + e.amount) 0 acc) []).map
        (fun p => BreakdownEntry.mk p.1 p.2 _))).map (fun b => b.amount)).sum
    = es.foldl (fun s e => s + e.amount) 0
  rw [stableSort_map_sum]
  rw [List.map_map]
  have h := foldl_upsert_sum (β := ℚ) id (fun e => e.category)
    (fun e v => v + e.amount) 0 (fun _ _ => rfl) rfl es []
  simp only [List.map_nil, List.sum_nil, zero_add, id] at h
  calc (((es.foldl (fun acc e => upsert e.category (fun v => v + e.amount) 0 acc) []).map
        ((fun b => b.amount) ∘ (fun p => BreakdownEntry.mk p.1 p.2 _)))).sum
      = ((es.foldl (fun acc e => upsert e.category (fun v => v + e.amount) 0 acc) []).map
        (fun p => id p.2)).sum := rfl
    _ = (es.map (fun e => e.amount)).sum := h
    _ = es.foldl (fun s e => s + e.amount) 0 := (by simpa using (foldl_add_amount es 0).symm)

/-- Claim C1: for every list of expense records, the amounts of the entries
of `categoryBreakdown` sum to `totalSpending`, and when `totalSpending` is
positive the percentage fields sum to exactly 100 (the rationals are exact,
so no rounding slack is needed). -/
theorem calculateSummary_breakdown_sums (inMonth : String → Bool) (es : List Expense) :
    (((calculateSummary inMonth es).categoryBreakdown.map (fun b => b.amount)).sum
      = (calculateSummary inMonth es).totalSpending)
    ∧ (0 < (calculateSummary inMonth es).totalSpending →
      ((calculateSummary inMonth es).categoryBreakdown.map (fun b => b.percentage)).sum = 100) := by
  refine ⟨calculateSummary_breakdown_amounts inMonth es, fun hT => ?_⟩
  have hTS : (calculateSummary inMonth es).totalSpending
      = es.foldl (fun s e => s + e.amount) 0 := rfl
  rw [hTS] at hT
  show ((stableSort (fun a b => decide (b.amount ≤ a.amount))
      ((es.foldl (fun acc e => upsert e.category (fun v => v + e.amount) 0 acc) []).map
        (fun p => BreakdownEntry.mk p.1 p.2
          (if 0 < es.foldl (fun s e => s + e.amount) 0
            then p.2 / es.foldl (fun s e => s + e.amount) 0 * 100 else 0)))).map
      (fun b => b.percentage)).sum = 100
  rw [stableSort_map_sum]
  rw [List.map_map]
  have hpt : ((fun b => b.percentage) ∘ (fun p : String × ℚ => BreakdownEntry.mk p.1 p.2
      (if 0 < es.foldl (fun s e => s + e.amount) 0
        then p.2 / es.foldl (fun s e => s + e.amount) 0 * 100 else 0)))
      = fun p : String × ℚ => p.2 / es.foldl (fun s e => s + e.amount) 0 * 100 := by
    funext p
    simp [hT]
  rw [hpt]
  have hmm : (fun p : String × ℚ => p.2 / es.foldl (fun s e => s + e.amount) 0 * 100)
      = (fun x : ℚ => x / es.foldl (fun s e => s + e.amount) 0 * 100) ∘ (fun p => p.2) := rfl
  rw [hmm, ← List.map_map, map_div_mul_sum]
  have h := foldl_upsert_sum (β := ℚ) id (fun e => e.category)
    (fun e v => v + e.amount) 0 (fun _ _ => rfl) rfl es []
  simp only [List.map_nil, List.sum_nil, zero_add, id] at h
  have h2 : ((es.foldl (fun acc e => upsert e.category (fun v => v + e.amount) 0 acc) []).map
      (fun p => p.2)).sum = es.foldl (fun s e => s + e.amount) 0 := by
    calc ((es.foldl (fun acc e => upsert e.category (fun v => v + e.amount) 0 acc) []).map
        (fun p => p.2)).sum
        = (es.map (fun e => e.amount)).sum := h
      _ = es.foldl (fun s e => s + e.amount) 0 := (by simpa using (foldl_add_amount es 0).symm)
  rw [h2, div_self (ne_of_gt hT), one_mul]

/-- Witness for claim C1 at a concrete record list with positive total. -/
theorem calculateSummary_breakdown_sums_witness :
    0 < (calculateSummary (fun _ => false) [Expense.mk "1" "2024-01-05" 5 "Food" "Cafe" "" ""]).totalSpending
    ∧ (((calculateSummary (fun _ => false)
        [Expense.mk "1" "2024-01-05" 5 "Food" "Cafe" "" ""]).categoryBreakdown.map
          (fun b => b.percentage)).sum = 100) := by
  have hT : 0 < (calculateSummary (fun _ => false)
      [Expense.mk "1" "2024-01-05" 5 "Food" "Cafe" "" ""]).totalSpending := by
    show (0 : ℚ) < [Expense.mk "1" "2024-01-05" 5 "Food" "Cafe" "" ""].foldl
      (fun s e => s + e.amount) 0
    norm_num
  exact ⟨hT, (calculateSummary_breakdown_sums (fun _ => false)
    [Expense.mk "1" "2024-01-05" 5 "Food" "Cafe" "" ""]).2 hT⟩

/-! ### Claim C6 -/

/-- Claim C6: `calculateSummary` on the empty record list returns zero total
spending, zero monthly spending, a null top category and an empty category
breakdown, whatever the current month is. -/
theorem calculateSummary_empty (inMonth : String → Bool) :
    calculateSummary inMonth [] = ExpenseSummary.mk 0 0 none [] := rfl

/-! ### Claim C9 -/

/-- Claim C9: filtering is idempotent; running `filterExpenses` twice with
the same criteria returns the same list as running it once. -/
theorem filterExpenses_idempotent (es : List Expense) (criteria : ExpenseFilters) :
    filterExpenses (filterExpenses es criteria) criteria = filterExpenses es criteria := by
  simp [filterExpenses, List.filter_filter]

/-! ### Claim C10 -/

/-- Claim C10: the output of `filterExpenses` is a subsequence of the input:
every returned record occurs in the input, no more often than there, and in
the input's relative order. -/
theorem filterExpenses_sublist (es : List Expense) (criteria : ExpenseFilters) :
    (filterExpenses es criteria).Sublist es :=
  List.filter_sublist es

/-! ### Claim C8 -/

/-- Claim C8: `performExport` rejects any format outside csv/json/pdf with a
descriptive error naming the format and issues no export effect, and for
each supported format it succeeds with the corresponding side effect. -/
theorem performExport_dispatch (toJSON toPDF : List Expense → String)
    (es : List Expense) (format filename : String) :
    (format ≠ "csv" → format ≠ "json" → format ≠ "pdf" →
      performExport toJSON toPDF es format filename
        = Except.error ("Unsupported format: " ++ format))
    ∧ performExport toJSON toPDF es "csv" filename
        = Except.ok (ExportEffect.download (exportToCSV es) (filename ++ ".csv")
            "text/csv;charset=utf-8;")
    ∧ performExport toJSON toPDF es "json" filename
        = Except.ok (ExportEffect.download (toJSON es) (filename ++ ".json")
            "application/json;charset=utf-8;")
    ∧ performExport toJSON toPDF es "pdf" filename
        = Except.ok (ExportEffect.openWindow (toPDF es)) := by
  refine ⟨fun h1 h2 h3 => ?_, by simp [performExport], by simp [performExport],
    by simp [performExport]⟩
  simp [performExport, h1, h2, h3]

/-- Witness for claim C8: the unsupported format `xml` is rejected with the
descriptive error. -/
theorem performExport_dispatch_witness :
    performExport (fun _ => "") (fun _ => "") [] "xml" "f"
      = Except.error ("Unsupported format: " ++ "xml") :=
  (performExport_dispatch (fun _ => "") (fun _ => "") [] "xml" "f").1
    (by decide) (by decide) (by decide)

/-! ### Claim C5 -/

theorem mkVendorData_totalAmount (v : String) (g : List Expense) :
    (mkVendorData v g).totalAmount = (g.map (fun e => e.amount)).sum := by
  show g.foldl (fun s e => s + e.amount) 0 = (g.map (fun e => e.amount)).sum
  simpa using foldl_add_amount g 0

theorem vendorGroups_amounts_sum (es : List Expense) :
    ((vendorGroups es).map (fun p => (p.2.map (fun e => e.amount)).sum)).sum
      = (es.map (fun e => e.amount)).sum := by
  have h := foldl_upsert_sum (β := List Expense) (fun l => (l.map (fun e => e.amount)).sum)
    (fun e => extractVendorName e.description) (fun e g => g ++ [e]) []
    (fun e v => by simp) (by simp) es []
  simpa [vendorGroups] using h

/-- Claim C5: the vendor list from `analyzeVendors` is sorted non-increasingly
by `totalAmount`, and the vendor totals sum to the `totalSpending` that
`calculateSummary` computes on the same records. -/
theorem analyzeVendors_sorted_and_total (inMonth : String → Bool) (es : List Expense) :
    (analyzeVendors es).Pairwise (fun a b => b.totalAmount ≤ a.totalAmount)
    ∧ ((analyzeVendors es).map (fun v => v.totalAmount)).sum
        = (calculateSummary inMonth es).totalSpending := by
  constructor
  · have hp := stableSort_pairwise (fun a b : VendorData => decide (b.totalAmount ≤ a.totalAmount))
      (fun a b => by
        rcases le_total b.totalAmount a.totalAmount with h | h
        · exact Or.inl (decide_eq_true h)
        · exact Or.inr (decide_eq_true h))
      (fun a b c hab hbc =>
        decide_eq_true (le_trans (of_decide_eq_true hbc) (of_decide_eq_true hab)))
      ((vendorGroups es).map (fun p => mkVendorData p.1 p.2))
    exact hp.imp (fun h => of_decide_eq_true h)
  · have h1 : ((analyzeVendors es).map (fun v => v.totalAmount)).sum
        = (((vendorGroups es).map (fun p => mkVendorData p.1 p.2)).map
            (fun v => v.totalAmount)).sum := stableSort_map_sum _ _ _
    rw [h1, List.map_map]
    have h2 : ((fun v : VendorData => v.totalAmount) ∘ (fun p : String × List Expense =>
        mkVendorData p.1 p.2)) = fun p : String × List Expense =>
          (p.2.map (fun e => e.amount)).sum := by
      funext p
      exact mkVendorData_totalAmount p.1 p.2
    rw [h2, vendorGroups_amounts_sum]
    show (es.map (fun e => e.amount)).sum = es.foldl (fun s e => s + e.amount) 0
    simpa using (foldl_add_amount es 0).symm

/-! ### Nonemptiness invariants used for the vendor claims -/

theorem mem_upsert_forall {β : Type} (P : β → Prop) (k : String) (f : β → β) (b0 : β)
    (hf : ∀ v, P (f v)) (l : List (String × β)) (hl : ∀ p ∈ l, P p.2) :
    ∀ p ∈ upsert k f b0 l, P p.2 := by
  induction l with
  | nil =>
    intro p hp
    simp only [upsert, List.mem_singleton] at hp
    rw [hp]
    exact hf b0
  | cons q t ih =>
    intro p hp
    by_cases h : q.1 = k
    · simp only [upsert, h, if_true] at hp
      rcases List.mem_cons.1 hp with hq | hq
      · rw [hq]; exact hf q.2
      · exact hl p (List.mem_cons_of_mem q hq)
    · simp only [upsert, h, if_false] at hp
      rcases List.mem_cons.1 hp with hq | hq
      · rw [hq]; exact hl q (List.mem_cons_self q t)
      · exact ih (fun r hr => hl r (List.mem_cons_of_mem q hr)) p hq

theorem foldl_upsert_forall {β : Type} (P : β → Prop) (key : Expense → String)
    (f : Expense → β → β) (b0 : β) (hf : ∀ e v, P (f e v)) (es : List Expense) :
    ∀ acc : List (String × β), (∀ p ∈ acc, P p.2) →
      ∀ p ∈ es.foldl (fun a e => upsert (key e) (f e) b0 a) acc, P p.2 := by
  induction es with
  | nil => intro acc hacc; simpa using hacc
  | cons e t ih =>
    intro acc hacc
    simp only [List.foldl_cons]
    exact ih _ (mem_upsert_forall P (key e) (f e) b0 (hf e) acc hacc)

theorem vendorGroups_ne_nil (es : List Expense) : ∀ p ∈ vendorGroups es, p.2 ≠ [] := by
  have h := foldl_upsert_forall (β := List Expense) (fun g => g ≠ [])
    (fun e => extractVendorName e.description) (fun e g => g ++ [e]) []
    (fun e v => by simp) es [] (by simp)
  simpa [vendorGroups] using h

theorem foldl_upsert_ne_nil {β : Type} (key : Expense → String) (f : Expense → β → β)
    (b0 : β) (es : List Expense) :
    ∀ acc : List (String × β), acc ≠ [] →
      es.foldl (fun a e => upsert (key e) (f e) b0 a) acc ≠ [] := by
  induction es with
  | nil => intro acc h; simpa using h
  | cons e t ih =>
    intro acc _
    simp only [List.foldl_cons]
    exact ih _ (upsert_ne_nil _ _ _ _)

theorem vendorCatTotals_ne_nil (g : List Expense) (hg : g ≠ []) : vendorCatTotals g ≠ [] := by
  cases g with
  | nil => exact absurd rfl hg
  | cons e t =>
    simp only [vendorCatTotals, List.foldl_cons]
    exact foldl_upsert_ne_nil _ _ _ t _ (upsert_ne_nil _ _ _ _)

theorem stableSort_eq_nil_iff {α : Type} (le : α → α → Bool) (l : List α) :
    stableSort le l = [] ↔ l = [] := by
  constructor
  · intro h
    have hlen := (stableSort_perm le l).length_eq
    rw [h] at hlen
    exact List.length_eq_zero.1 hlen.symm
  · intro h
    rw [h]
    rfl

/-! ### Projections of `mkVendorData` -/

theorem mkVendorData_breakdown (v : String) (g : List Expense) :
    (mkVendorData v g).categoryBreakdown
      = stableSort (fun a b => decide (b.count ≤ a.count))
          (stableSort (fun a b => decide (b.amount ≤ a.amount))
            ((vendorCatTotals g).map (fun p => VendorCatEntry.mk p.1 p.2.1 p.2.2))) := rfl

theorem mkVendorData_primary (v : String) (g : List Expense) :
    (mkVendorData v g).primaryCategory
      = match (mkVendorData v g).categoryBreakdown with
        | [] => "Other"
        | b :: _ => b.category := rfl

/-! ### Claim C4 (amended) -/

/-- Claim C4, amended: in every vendor entry, `primaryCategory` is a category
whose transaction count within the vendor's breakdown is maximal (the
refuted tie-break clause is dropped: ties follow the preceding
amount-descending order, not encounter order), and the two-record Cafe
scenario produces the single vendor entry the claim describes. -/
theorem analyzeVendors_primaryCategory_max_count (es : List Expense) :
    (∀ v ∈ analyzeVendors es, ∃ b ∈ v.categoryBreakdown,
      b.category = v.primaryCategory ∧ ∀ bq ∈ v.categoryBreakdown, bq.count ≤ b.count)
    ∧ analyzeVendors
        [Expense.mk "1" "2024-01-05" 12.5 "Food" "Cafe" "" "",
          Expense.mk "2" "2024-01-20" 7.5 "Food" "Cafe" "" ""]
      = [VendorData.mk "Cafe" 20 2 "2024-01-20" "Food" [VendorCatEntry.mk "Food" 20 2]] := by
  constructor
  · intro v hv
    have hv2 : v ∈ (vendorGroups es).map (fun p => mkVendorData p.1 p.2) :=
      ((stableSort_perm _ _).mem_iff).1 hv
    obtain ⟨p, hp, hvp⟩ := List.mem_map.1 hv2
    have hg : p.2 ≠ [] := vendorGroups_ne_nil es p hp
    have hcb : (mkVendorData p.1 p.2).categoryBreakdown ≠ [] := by
      rw [mkVendorData_breakdown]
      intro h
      rw [stableSort_eq_nil_iff, stableSort_eq_nil_iff, List.map_eq_nil_iff] at h
      exact vendorCatTotals_ne_nil p.2 hg h
    obtain ⟨b, t2, hbt⟩ := List.exists_cons_of_ne_nil hcb
    subst hvp
    refine ⟨b, ?_, ?_, ?_⟩
    · rw [hbt]
      exact List.mem_cons_self b t2
    · rw [mkVendorData_primary, hbt]
    · have hpw := stableSort_pairwise (fun a b : VendorCatEntry => decide (b.count ≤ a.count))
        (fun a b => by
          rcases Nat.le_total b.count a.count with h | h
          · exact Or.inl (decide_eq_true h)
          · exact Or.inr (decide_eq_true h))
        (fun a b c hab hbc =>
          decide_eq_true (Nat.le_trans (of_decide_eq_true hbc) (of_decide_eq_true hab)))
        (stableSort (fun a b => decide (b.amount ≤ a.amount))
          ((vendorCatTotals p.2).map (fun q => VendorCatEntry.mk q.1 q.2.1 q.2.2)))
      rw [← mkVendorData_breakdown p.1 p.2, hbt] at hpw
      rcases List.pairwise_cons.1 hpw with ⟨hhead, _⟩
      intro bq hbq
      rw [hbt] at hbq
      rcases List.mem_cons.1 hbq with hq | hq
      · rw [hq]
      · exact of_decide_eq_true (hhead bq hq)
  · have h20 : (0 : ℚ) + 12.5 + 7.5 = 20 := by norm_num
    have hstep : analyzeVendors
        [Expense.mk "1" "2024-01-05" 12.5 "Food" "Cafe" "" "",
          Expense.mk "2" "2024-01-20" 7.5 "Food" "Cafe" "" ""]
        = [VendorData.mk "Cafe" ((0 : ℚ) + 12.5 + 7.5) 2 "2024-01-20" "Food"
            [VendorCatEntry.mk "Food" ((0 : ℚ) + 12.5 + 7.5) 2]] := rfl
    rw [hstep, h20]

/-- Counterexample to claim C4 as stated: a vendor with two categories tied
at one transaction each, the category `A` encountered first; the code picks
`B` (the one the amount sort placed first), not the first-encountered `A`. -/
theorem analyzeVendors_primary_tiebreak_cex :
    (analyzeVendors
        [Expense.mk "1" "2024-01-01" 5 "A" "Shop" "" "",
          Expense.mk "2" "2024-01-02" 10 "B" "Shop" "" ""]).map
      (fun v => v.primaryCategory) = ["B"]
    ∧ (analyzeVendors
        [Expense.mk "1" "2024-01-01" 5 "A" "Shop" "" "",
          Expense.mk "2" "2024-01-02" 10 "B" "Shop" "" ""]).map
      (fun v => v.categoryBreakdown.map (fun b => (b.category, b.count))) = [[("B", 1), ("A", 1)]]
    ∧ ("B" : String) ≠ "A" := by
  have h5 : (0 : ℚ) + 5 = 5 := by norm_num
  have h10 : (0 : ℚ) + 10 = 10 := by norm_num
  have hcat : vendorCatTotals
      [Expense.mk "1" "2024-01-01" 5 "A" "Shop" "" "",
        Expense.mk "2" "2024-01-02" 10 "B" "Shop" "" ""]
      = [("A", ((0 : ℚ) + 5, 1)), ("B", ((0 : ℚ) + 10, 1))] := rfl
  have hcat2 : vendorCatTotals
      [Expense.mk "1" "2024-01-01" 5 "A" "Shop" "" "",
        Expense.mk "2" "2024-01-02" 10 "B" "Shop" "" ""]
      = [("A", ((5 : ℚ), 1)), ("B", ((10 : ℚ), 1))] := by
    rw [hcat, h5, h10]
  refine ⟨?_, ?_, by decide⟩
  · have h0 : (analyzeVendors
        [Expense.mk "1" "2024-01-01" 5 "A" "Shop" "" "",
          Expense.mk "2" "2024-01-02" 10 "B" "Shop" "" ""]).map (fun v => v.primaryCategory)
        = [(mkVendorData "Shop"
            [Expense.mk "1" "2024-01-01" 5 "A" "Shop" "" "",
              Expense.mk "2" "2024-01-02" 10 "B" "Shop" "" ""]).primaryCategory] := rfl
    rw [h0, mkVendorData_primary, mkVendorData_breakdown, hcat2]
    decide
  · have h0 : (analyzeVendors
        [Expense.mk "1" "2024-01-01" 5 "A" "Shop" "" "",
          Expense.mk "2" "2024-01-02" 10 "B" "Shop" "" ""]).map
        (fun v => v.categoryBreakdown.map (fun b => (b.category, b.count)))
        = [(mkVendorData "Shop"
            [Expense.mk "1" "2024-01-01" 5 "A" "Shop" "" "",
              Expense.mk "2" "2024-01-02" 10 "B" "Shop" "" ""]).categoryBreakdown.map
            (fun b => (b.category, b.count))] := rfl
    rw [h0, mkVendorData_breakdown, hcat2]
    decide

/-! ### Claim C2: the in-place count re-sort leaves the breakdown sorted by
count, not by amount -/

/-- Claim C2 fails on the code: for a vendor whose category `A` has one
100-amount transaction and category `B` two transactions of amounts 4 and 6,
the returned breakdown is `[B (amount 10), A (amount 100)]` — not descending
by amount.  The in-place `sort((a, b) => b.count - a.count)` used to pick
`primaryCategory` re-orders the already amount-sorted array before it is
pushed. -/
theorem analyzeVendors_breakdown_not_amount_sorted :
    (analyzeVendors
        [Expense.mk "1" "2024-01-01" 100 "A" "Shop" "" "",
          Expense.mk "2" "2024-01-02" 4 "B" "Shop" "" "",
          Expense.mk "3" "2024-01-03" 6 "B" "Shop" "" ""]).map
      (fun v => v.categoryBreakdown.map (fun b => (b.category, b.amount)))
      = [[("B", (10 : ℚ)), ("A", (100 : ℚ))]]
    ∧ ¬ ((100 : ℚ) ≤ 10) := by
  have h100 : (0 : ℚ) + 100 = 100 := by norm_num
  have h10 : (0 : ℚ) + 4 + 6 = 10 := by norm_num
  have hcat : vendorCatTotals
      [Expense.mk "1" "2024-01-01" 100 "A" "Shop" "" "",
        Expense.mk "2" "2024-01-02" 4 "B" "Shop" "" "",
        Expense.mk "3" "2024-01-03" 6 "B" "Shop" "" ""]
      = [("A", ((0 : ℚ) + 100, 1)), ("B", ((0 : ℚ) + 4 + 6, 2))] := rfl
  have hcat2 : vendorCatTotals
      [Expense.mk "1" "2024-01-01" 100 "A" "Shop" "" "",
        Expense.mk "2" "2024-01-02" 4 "B" "Shop" "" "",
        Expense.mk "3" "2024-01-03" 6 "B" "Shop" "" ""]
      = [("A", ((100 : ℚ), 1)), ("B", ((10 : ℚ), 2))] := by
    rw [hcat, h100, h10]
  refine ⟨?_, by norm_num⟩
  have h0 : (analyzeVendors
      [Expense.mk "1" "2024-01-01" 100 "A" "Shop" "" "",
        Expense.mk "2" "2024-01-02" 4 "B" "Shop" "" "",
        Expense.mk "3" "2024-01-03" 6 "B" "Shop" "" ""]).map
      (fun v => v.categoryBreakdown.map (fun b => (b.category, b.amount)))
      = [(mkVendorData "Shop"
          [Expense.mk "1" "2024-01-01" 100 "A" "Shop" "" "",
            Expense.mk "2" "2024-01-02" 4 "B" "Shop" "" "",
            Expense.mk "3" "2024-01-03" 6 "B" "Shop" "" ""]).categoryBreakdown.map
          (fun b => (b.category, b.amount))] := rfl
  rw [h0, mkVendorData_breakdown, hcat2]
  decide

/-! ### Claim C3: the empty query matches everything, a whitespace-only
query does not -/

/-- Counterexample to claim C3 as stated: a whitespace-only search query is
truthy in JS, so the source runs a literal substring search with it; the
record with description `Cafe`, category `Food` and amount `5` contains no
space in any searched field and is filtered out instead of passing. -/
theorem filterExpenses_whitespace_query_cex :
    filterExpenses [Expense.mk "1" "2024-01-05" 5 "Food" "Cafe" "" ""]
      (ExpenseFilters.mk none none none (some " ")) = []
    ∧ searchPasses (some " ") (Expense.mk "1" "2024-01-05" 5 "Food" "Cafe" "" "") = false := by
  decide

/-- Claim C3, amended: only a criteria whose search query is absent or the
empty string (the JS-falsy cases) passes every record through the
search-query criterion; filtering with only such a query returns the whole
input.  A whitespace-only query instead runs a literal substring search. -/
theorem filterExpenses_empty_query_passes (es : List Expense) (q : Option String)
    (hq : q = none ∨ q = some "") :
    (∀ e, searchPasses q e = true)
    ∧ filterExpenses es (ExpenseFilters.mk none none none q) = es := by
  have ht : truthy q = false := by rcases hq with rfl | rfl <;> rfl
  have hs : ∀ e, searchPasses q e = true := by
    intro e
    simp [searchPasses, ht]
  refine ⟨hs, ?_⟩
  simp [filterExpenses, passesFilters, truthy, hs]

/-- Witness for the amended claim C3 at the empty query and a concrete
record. -/
theorem filterExpenses_empty_query_passes_witness :
    (∀ e, searchPasses (some "") e = true)
    ∧ filterExpenses [Expense.mk "1" "2024-01-05" 5 "Food" "Cafe" "" ""]
        (ExpenseFilters.mk none none none (some "")) =
        [Expense.mk "1" "2024-01-05" 5 "Food" "Cafe" "" ""] :=
  filterExpenses_empty_query_passes [Expense.mk "1" "2024-01-05" 5 "Food" "Cafe" "" ""]
    (some "") (Or.inr rfl)

/-! ### Claim C7: CSV round trip -/

/-- Modelled from the spec: the claim's "standard (RFC-4180-style) CSV
rules" reader, which is not part of the repository.  Reads the inside of a
quoted field after its opening quote: a doubled quote stands for one quote,
a lone quote closes the field.  Fuel-driven; one unit per step. -/
def parseQuotedF : Nat → List Char → List Char × List Char
  | 0, cs => ([], cs)
  | _ + 1, [] => ([], [])
  | fuel + 1, c :: t =>
    if c = quoteChar then
      match t with
      | [] => ([], [])
      | c2 :: t2 =>
        if c2 = quoteChar then
          (quoteChar :: (parseQuotedF fuel t2).1, (parseQuotedF fuel t2).2)
        else ([], c2 :: t2)
    else (c :: (parseQuotedF fuel t).1, (parseQuotedF fuel t).2)

/-- Modelled from the spec: an unquoted CSV field runs to the next comma,
line feed, or the end of input. -/
def parseUnquotedF : Nat → List Char → List Char × List Char
  | 0, cs => ([], cs)
  | _ + 1, [] => ([], [])
  | fuel + 1, c :: t =>
    if c = commaChar ∨ c = nlChar then ([], c :: t)
    else (c :: (parseUnquotedF fuel t).1, (parseUnquotedF fuel t).2)

/-- Modelled from the spec: one CSV field, quoted when it opens with a
double quote. -/
def parseField (cs : List Char) : List Char × List Char :=
  match cs with
  | [] => ([], [])
  | c :: t =>
    if c = quoteChar then parseQuotedF (t.length + 1) t
    else parseUnquotedF (cs.length + 1) (c :: t)

/-- Modelled from the spec: one CSV record, its fields separated by
commas. -/
def parseRowF : Nat → List Char → List String × List Char
  | 0, cs => ([], cs)
  | fuel + 1, cs =>
    match (parseField cs).2 with
    | [] => ([String.mk (parseField cs).1], [])
    | c :: t =>
      if c = commaChar then
        (String.mk (parseField cs).1 :: (parseRowF fuel t).1, (parseRowF fuel t).2)
      else ([String.mk (parseField cs).1], c :: t)

/-- Modelled from the spec: CSV records separated by line feeds (the
export's record separator). -/
def parseRowsF : Nat → List Char → List (List String)
  | 0, _ => []
  | fuel + 1, cs =>
    match (parseRowF (cs.length + 1) cs).2 with
    | [] => [(parseRowF (cs.length + 1) cs).1]
    | c :: t =>
      if c = nlChar then (parseRowF (cs.length + 1) cs).1 :: parseRowsF fuel t
      else [(parseRowF (cs.length + 1) cs).1]

/-- Modelled from the spec: parse a whole CSV artifact into its rows of
fields. -/
def parseCSV (s : String) : List (List String) := parseRowsF (s.data.length + 1) s.data

/-- A character that needs no CSV quoting: not a comma, not a double quote,
not a line feed. -/
abbrev safeChar (c : Char) : Prop := c ≠ commaChar ∧ c ≠ quoteChar ∧ c ≠ nlChar

/-- A string all of whose characters are CSV-safe. -/
abbrev safeField (s : String) : Prop := ∀ c ∈ s.data, safeChar c

/-- The rest of the input directly after a field must start with a comma or
a line feed (or be exhausted). -/
def headStops : List Char → Prop
  | [] => True
  | c :: _ => c = commaChar ∨ c = nlChar

/-- The rest of the input directly after a closing quote must not start
with another double quote. -/
def headNotQuote : List Char → Prop
  | [] => True
  | c :: _ => c ≠ quoteChar

/-- The rest of the input directly after a full record is a line feed or
the end of input. -/
def headNL : List Char → Prop
  | [] => True
  | c :: _ => c = nlChar

/-- The four parsed fields the export writes for one record. -/
def csvRowFields (e : Expense) : List String :=
  [e.date, e.category, ratToString e.amount, e.description]

/-- The characters of one exported CSV row. -/
def rowData (e : Expense) : List Char :=
  e.date.data ++ commaChar :: (e.category.data ++ commaChar ::
    (ratToChars e.amount ++ commaChar ::
      (quoteChar :: (escChars e.description.data ++ [quoteChar]))))

/-- The characters the export appends after the header: a line feed and a
row for each record. -/
def rowsTail : List Expense → List Char
  | [] => []
  | e :: t => nlChar :: (rowData e ++ rowsTail t)

/-! ### Safety of the generated digit characters -/

theorem digitChar_safe (n : Nat) : safeChar (digitChar n) := by
  have h : n % 10 = 0 ∨ n % 10 = 1 ∨ n % 10 = 2 ∨ n % 10 = 3 ∨ n % 10 = 4 ∨ n % 10 = 5
      ∨ n % 10 = 6 ∨ n % 10 = 7 ∨ n % 10 = 8 ∨ n % 10 = 9 := by omega
  rcases h with h | h | h | h | h | h | h | h | h | h <;>
    simp only [digitChar, h] <;> decide

theorem natToCharsAux_safe (fuel : Nat) :
    ∀ (n : Nat) (acc : List Char), (∀ c ∈ acc, safeChar c) →
      ∀ c ∈ natToCharsAux fuel n acc, safeChar c := by
  induction fuel with
  | zero => intro n acc hacc; simpa [natToCharsAux] using hacc
  | succ f ih =>
    intro n acc hacc c hc
    by_cases h : n < 10
    · simp only [natToCharsAux, h, if_true] at hc
      rcases List.mem_cons.1 hc with hq | hq
      · rw [hq]; exact digitChar_safe n
      · exact hacc c hq
    · simp only [natToCharsAux, h, if_false] at hc
      refine ih (n / 10) (digitChar n :: acc) ?_ c hc
      intro d hd
      rcases List.mem_cons.1 hd with hq | hq
      · rw [hq]; exact digitChar_safe n
      · exact hacc d hq

theorem natToChars_safe (n : Nat) : ∀ c ∈ natToChars n, safeChar c :=
  natToCharsAux_safe (n + 1) n [] (by simp)

theorem ratToChars_safe (q : ℚ) : ∀ c ∈ ratToChars q, safeChar c := by
  intro c hc
  have hsign : ∀ d ∈ (if q.num < 0 then [minusChar] else ([] : List Char)), safeChar d := by
    intro d hd
    by_cases hneg : q.num < 0
    · simp only [hneg, if_true, List.mem_singleton] at hd
      rw [hd]; decide
    · simp [hneg] at hd
  by_cases hden : q.den = 1
  · simp only [ratToChars, hden, if_true] at hc
    rcases List.mem_append.1 hc with hq | hq
    · exact hsign c hq
    · exact natToChars_safe _ c hq
  · cases hfind : (List.range 31).find? (fun k => decide (q.den ∣ 10 ^ k)) with
    | some k =>
      simp only [ratToChars, hden, if_false, hfind] at hc
      have hpad : ∀ d ∈ List.replicate (k + 1 - (natToChars (q.num.natAbs * 10 ^ k / q.den)).length)
          (digitChar 0) ++ natToChars (q.num.natAbs * 10 ^ k / q.den), safeChar d := by
        intro d hd
        rcases List.mem_append.1 hd with hq | hq
        · rw [List.eq_of_mem_replicate hq]; exact digitChar_safe 0
        · exact natToChars_safe _ d hq
      rcases List.mem_append.1 hc with hq | hq
      · rcases List.mem_append.1 hq with hq2 | hq2
        · exact hsign c hq2
        · exact hpad c (List.take_subset _ _ hq2)
      · rcases List.mem_cons.1 hq with hq3 | hq3
        · rw [hq3]; decide
        · exact hpad c (List.drop_subset _ _ hq3)
    | none =>
      simp only [ratToChars, hden, if_false, hfind] at hc
      rcases List.mem_append.1 hc with hq | hq
      · exact hsign c hq
      · exact natToChars_safe _ c hq

theorem escChars_length_ge (d : List Char) : d.length ≤ (escChars d).length := by
  induction d with
  | nil => simp [escChars]
  | cons c t ih =>
    by_cases h : c = quoteChar <;> simp [escChars, h] <;> omega

/-! ### Correctness of the CSV reader on exported rows -/

theorem mk_data_eq (s : String) : String.mk s.data = s := rfl

theorem parseUnquotedF_spec (xs : List Char) :
    ∀ (r : List Char) (fuel : Nat), xs.length + 1 ≤ fuel →
      (∀ c ∈ xs, c ≠ commaChar ∧ c ≠ nlChar) → headStops r →
      parseUnquotedF fuel (xs ++ r) = (xs, r) := by
  induction xs with
  | nil =>
    intro r fuel hfuel _ hr
    obtain ⟨f, rfl⟩ : ∃ f, fuel = f + 1 := ⟨fuel - 1, by omega⟩
    cases r with
    | nil => rfl
    | cons c t =>
      have hc : c = commaChar ∨ c = nlChar := hr
      show parseUnquotedF (f + 1) (c :: t) = ([], c :: t)
      simp only [parseUnquotedF]
      rw [if_pos hc]
  | cons x xs2 ih =>
    intro r fuel hfuel hsafe hr
    obtain ⟨f, rfl⟩ : ∃ f, fuel = f + 1 := ⟨fuel - 1, by omega⟩
    have hx := hsafe x (List.mem_cons_self x xs2)
    have hcond : ¬ (x = commaChar ∨ x = nlChar) := by
      rintro (h | h)
      · exact hx.1 h
      · exact hx.2 h
    show parseUnquotedF (f + 1) (x :: (xs2 ++ r)) = (x :: xs2, r)
    simp only [parseUnquotedF]
    rw [if_neg hcond,
      ih r f (by simp at hfuel; omega) (fun c hc2 => hsafe c (List.mem_cons_of_mem x hc2)) hr]

theorem parseQuotedF_spec (d : List Char) :
    ∀ (r : List Char) (fuel : Nat), d.length + 1 ≤ fuel → headNotQuote r →
      parseQuotedF fuel (escChars d ++ (quoteChar :: r)) = (d, r) := by
  induction d with
  | nil =>
    intro r fuel hfuel hr
    obtain ⟨f, rfl⟩ : ∃ f, fuel = f + 1 := ⟨fuel - 1, by omega⟩
    show parseQuotedF (f + 1) (quoteChar :: r) = ([], r)
    cases r with
    | nil => rfl
    | cons c2 t2 =>
      have hc2 : c2 ≠ quoteChar := hr
      simp [parseQuotedF, hc2]
  | cons a d2 ih =>
    intro r fuel hfuel hr
    obtain ⟨f, rfl⟩ : ∃ f, fuel = f + 1 := ⟨fuel - 1, by omega⟩
    have hrec := ih r f (by simp at hfuel; omega) hr
    by_cases ha : a = quoteChar
    · subst ha
      show parseQuotedF (f + 1)
        (quoteChar :: (quoteChar :: (escChars d2 ++ (quoteChar :: r)))) = (quoteChar :: d2, r)
      simp [parseQuotedF, hrec]
    · have hesc : escChars (a :: d2) = a :: escChars d2 := by
        simp only [escChars]
        rw [if_neg ha]
      rw [hesc]
      show parseQuotedF (f + 1) (a :: (escChars d2 ++ (quoteChar :: r))) = (a :: d2, r)
      simp [parseQuotedF, ha, hrec]

theorem parseField_safe (xs r : List Char) (hxs : ∀ c ∈ xs, safeChar c) (hr : headStops r) :
    parseField (xs ++ r) = (xs, r) := by
  cases xs with
  | nil =>
    cases r with
    | nil => rfl
    | cons c t =>
      have hc : c = commaChar ∨ c = nlChar := hr
      have hcq : c ≠ quoteChar := by
        rcases hc with rfl | rfl <;> decide
      show parseField (c :: t) = ([], c :: t)
      simp only [parseField]
      rw [if_neg hcq]
      exact parseUnquotedF_spec [] (c :: t) ((c :: t).length + 1) (by simp) (by simp) hr
  | cons x xs2 =>
    have hx := hxs x (List.mem_cons_self x xs2)
    show parseField (x :: (xs2 ++ r)) = (x :: xs2, r)
    simp only [parseField]
    rw [if_neg hx.2.1]
    exact parseUnquotedF_spec (x :: xs2) r ((x :: (xs2 ++ r)).length + 1)
      (by simp) (fun c hc => ⟨(hxs c hc).1, (hxs c hc).2.2⟩) hr

theorem parseField_quoted (d r : List Char) (hr : headNotQuote r) :
    parseField (quoteChar :: (escChars d ++ (quoteChar :: r))) = (d, r) := by
  simp only [parseField, if_true]
  refine parseQuotedF_spec d r ((escChars d ++ (quoteChar :: r)).length + 1) ?_ hr
  have h := escChars_length_ge d
  simp only [List.length_append, List.length_cons]
  omega

theorem parseRowF_step (xs rest : List Char) (fuel : Nat) (hxs : ∀ c ∈ xs, safeChar c) :
    parseRowF (fuel + 1) (xs ++ (commaChar :: rest))
      = (String.mk xs :: (parseRowF fuel rest).1, (parseRowF fuel rest).2) := by
  have hfield := parseField_safe xs (commaChar :: rest) hxs (Or.inl rfl)
  simp [parseRowF, hfield]

theorem parseRowF_last_unquoted (xs r : List Char) (fuel : Nat)
    (hxs : ∀ c ∈ xs, safeChar c) (hr : headNL r) :
    parseRowF (fuel + 1) (xs ++ r) = ([String.mk xs], r) := by
  have hstops : headStops r := by
    cases r with
    | nil => trivial
    | cons c t => exact Or.inr hr
  have hfield := parseField_safe xs r hxs hstops
  cases r with
  | nil =>
    rw [List.append_nil] at hfield
    simp [parseRowF, hfield]
  | cons c t =>
    have hc : c = nlChar := hr
    have hcc : c ≠ commaChar := by rw [hc]; decide
    simp [parseRowF, hfield, hcc]

theorem parseRowF_last_quoted (d r : List Char) (fuel : Nat) (hr : headNL r) :
    parseRowF (fuel + 1) (quoteChar :: (escChars d ++ (quoteChar :: r))) = ([String.mk d], r) := by
  have hnq : headNotQuote r := by
    cases r with
    | nil => trivial
    | cons c t =>
      have hc : c = nlChar := hr
      show c ≠ quoteChar
      rw [hc]
      decide
  have hfield := parseField_quoted d r hnq
  cases r with
  | nil => simp [parseRowF, hfield]
  | cons c t =>
    have hc : c = nlChar := hr
    have hcc : c ≠ commaChar := by rw [hc]; decide
    simp [parseRowF, hfield, hcc]

theorem parseRowF_expense (e : Expense) (r : List Char) (g : Nat)
    (hdate : safeField e.date) (hcat : safeField e.category) (hr : headNL r) :
    parseRowF (g + 1 + 1 + 1 + 1) (rowData e ++ r) = (csvRowFields e, r) := by
  have h1 : rowData e ++ r
      = e.date.data ++ (commaChar :: (e.category.data ++ (commaChar ::
          (ratToChars e.amount ++ (commaChar ::
            (quoteChar :: (escChars e.description.data ++ (quoteChar :: r)))))))) := by
    simp [rowData]
  rw [h1]
  rw [parseRowF_step e.date.data _ _ hdate]
  rw [parseRowF_step e.category.data _ _ hcat]
  rw [parseRowF_step (ratToChars e.amount) _ _ (ratToChars_safe e.amount)]
  rw [parseRowF_last_quoted e.description.data r g hr]
  simp [csvRowFields, ratToString, mk_data_eq]

theorem parseRowF_headerRow (r : List Char) (g : Nat) (hr : headNL r) :
    parseRowF (g + 1 + 1 + 1 + 1) ("Date,Category,Amount,Description".data ++ r)
      = (["Date", "Category", "Amount", "Description"], r) := by
  have hsplit : ("Date,Category,Amount,Description".data : List Char)
      = "Date".data ++ (commaChar :: ("Category".data ++ (commaChar ::
          ("Amount".data ++ (commaChar :: "Description".data))))) := by decide
  rw [hsplit]
  have h1 : ("Date".data ++ (commaChar :: ("Category".data ++ (commaChar ::
      ("Amount".data ++ (commaChar :: "Description".data)))))) ++ r
      = "Date".data ++ (commaChar :: ("Category".data ++ (commaChar ::
          ("Amount".data ++ (commaChar :: ("Description".data ++ r)))))) := by
    simp
  rw [h1]
  rw [parseRowF_step "Date".data _ _ (by decide)]
  rw [parseRowF_step "Category".data _ _ (by decide)]
  rw [parseRowF_step "Amount".data _ _ (by decide)]
  rw [parseRowF_last_unquoted "Description".data r g (by decide) hr]

/-! ### Assembling the whole CSV artifact -/

theorem rowString_data (e : Expense) :
    (joinSep (String.mk [commaChar]) (csvCells e)).data = rowData e := by
  simp [joinSep, csvCells, rowData, String.data_append, ratToString]

theorem joinSep_nl_data (l : List Expense) :
    ∀ s : String,
      (joinSep (String.mk [nlChar])
        (s :: l.map (fun e => joinSep (String.mk [commaChar]) (csvCells e)))).data
      = s.data ++ rowsTail l := by
  induction l with
  | nil => intro s; simp [joinSep, rowsTail]
  | cons e t ih =>
    intro s
    show (s ++ String.mk [nlChar] ++ joinSep (String.mk [nlChar])
      (joinSep (String.mk [commaChar]) (csvCells e)
        :: t.map (fun x => joinSep (String.mk [commaChar]) (csvCells x)))).data
      = s.data ++ rowsTail (e :: t)
    rw [String.data_append, String.data_append,
      ih (joinSep (String.mk [commaChar]) (csvCells e)), rowString_data]
    simp [rowsTail]

theorem csvHeader_eq : csvHeader = "Date,Category,Amount,Description" := by decide

theorem exportToCSV_data (es : List Expense) :
    (exportToCSV es).data = "Date,Category,Amount,Description".data ++ rowsTail es := by
  show (joinSep (String.mk [nlChar])
    (csvHeader :: es.map (fun e => joinSep (String.mk [commaChar]) (csvCells e)))).data = _
  rw [joinSep_nl_data es csvHeader, csvHeader_eq]

theorem rowData_length_ge (e : Expense) : 5 ≤ (rowData e).length := by
  simp [rowData]
  omega

theorem rowsTail_length_ge (es : List Expense) : es.length ≤ (rowsTail es).length := by
  induction es with
  | nil => simp [rowsTail]
  | cons e t ih =>
    have h := rowData_length_ge e
    simp only [rowsTail, List.length_cons, List.length_append]
    omega

theorem parseRowsF_chain (es : List Expense) :
    ∀ (e : Expense) (fuel : Nat), es.length + 1 ≤ fuel →
      safeField e.date → safeField e.category →
      (∀ x ∈ es, safeField x.date ∧ safeField x.category) →
      parseRowsF fuel (rowData e ++ rowsTail es) = csvRowFields e :: es.map csvRowFields := by
  induction es with
  | nil =>
    intro e fuel hfuel hd hc _
    obtain ⟨f, rfl⟩ : ∃ f, fuel = f + 1 := ⟨fuel - 1, by omega⟩
    obtain ⟨g, hg⟩ : ∃ g, (rowData e ++ rowsTail []).length + 1 = g + 1 + 1 + 1 + 1 := by
      refine ⟨(rowData e ++ rowsTail []).length + 1 - 4, ?_⟩
      have h := rowData_length_ge e
      simp only [List.length_append]
      omega
    have hrow := parseRowF_expense e (rowsTail []) g hd hc trivial
    simp only [parseRowsF]
    rw [hg, hrow]
    simp [rowsTail, csvRowFields]
  | cons e2 t ih =>
    intro e fuel hfuel hd hc hsafe
    obtain ⟨f, rfl⟩ : ∃ f, fuel = f + 1 := ⟨fuel - 1, by omega⟩
    obtain ⟨g, hg⟩ : ∃ g, (rowData e ++ rowsTail (e2 :: t)).length + 1 = g + 1 + 1 + 1 + 1 := by
      refine ⟨(rowData e ++ rowsTail (e2 :: t)).length + 1 - 4, ?_⟩
      have h := rowData_length_ge e
      simp only [List.length_append]
      omega
    have hrow := parseRowF_expense e (rowsTail (e2 :: t)) g hd hc (by exact rfl)
    simp only [parseRowsF]
    rw [hg, hrow]
    have hnl : rowsTail (e2 :: t) = nlChar :: (rowData e2 ++ rowsTail t) := rfl
    have he2 := hsafe e2 (List.mem_cons_self e2 t)
    have hih := ih e2 f (by simp at hfuel; omega) he2.1 he2.2
      (fun x hx => hsafe x (List.mem_cons_of_mem e2 hx))
    rw [hnl]
    simp only [List.map_cons]
    simp [hih]

theorem parseRowsF_all (es : List Expense) (fuel : Nat) (hfuel : es.length + 1 ≤ fuel)
    (hsafe : ∀ e ∈ es, safeField e.date ∧ safeField e.category) :
    parseRowsF (fuel + 1) ("Date,Category,Amount,Description".data ++ rowsTail es)
      = ["Date", "Category", "Amount", "Description"] :: es.map csvRowFields := by
  have hhdrlen : ("Date,Category,Amount,Description".data : List Char).length = 32 := by decide
  obtain ⟨g, hg⟩ : ∃ g, (("Date,Category,Amount,Description".data
      ++ rowsTail es) : List Char).length + 1 = g + 1 + 1 + 1 + 1 := by
    refine ⟨(("Date,Category,Amount,Description".data
      ++ rowsTail es) : List Char).length + 1 - 4, ?_⟩
    simp only [List.length_append, hhdrlen]
    omega
  have hr : headNL (rowsTail es) := by
    cases es with
    | nil => trivial
    | cons a b => exact rfl
  have hhdr := parseRowF_headerRow (rowsTail es) g hr
  cases es with
  | nil =>
    simp only [parseRowsF]
    rw [hg, hhdr]
    simp [rowsTail]
  | cons e t =>
    simp only [parseRowsF]
    rw [hg, hhdr]
    have hnl : rowsTail (e :: t) = nlChar :: (rowData e ++ rowsTail t) := rfl
    rw [hnl]
    have he := hsafe e (List.mem_cons_self e t)
    have hchain := parseRowsF_chain t e fuel (by simp at hfuel; omega) he.1 he.2
      (fun x hx => hsafe x (List.mem_cons_of_mem e hx))
    simp [hchain]

/-- Claim C7, amended: exporting and then reading back with RFC-4180-style
CSV rules reconstructs the header and, for each record in order, the tuple
(date, category, stringified amount, description) — descriptions are
arbitrary, embedded double quotes included — provided the unquoted fields,
date and category, contain no comma, double quote, or line feed (the
stringified amount never does).  A date or category containing such a
character breaks the row, as the counterexample shows. -/
theorem csv_roundtrip (es : List Expense)
    (hsafe : ∀ e ∈ es, safeField e.date ∧ safeField e.category) :
    parseCSV (exportToCSV es)
      = ["Date", "Category", "Amount", "Description"] :: es.map csvRowFields := by
  show parseRowsF ((exportToCSV es).data.length + 1) (exportToCSV es).data = _
  rw [exportToCSV_data]
  refine parseRowsF_all es
    ((("Date,Category,Amount,Description".data ++ rowsTail es) : List Char).length) ?_ hsafe
  have h1 := rowsTail_length_ge es
  have hhdrlen : ("Date,Category,Amount,Description".data : List Char).length = 32 := by decide
  simp only [List.length_append, hhdrlen]
  omega

/-- Witness for the amended claim C7: a record whose description embeds a
double quote round-trips; the quoted field is unescaped back to the
original description. -/
theorem csv_roundtrip_witness :
    parseCSV (exportToCSV [Expense.mk "1" "2024-01-01" 5 "Food" "He said \"hi\"" "" ""])
      = [["Date", "Category", "Amount", "Description"],
          ["2024-01-01", "Food", ratToString 5, "He said \"hi\""]] :=
  csv_roundtrip [Expense.mk "1" "2024-01-01" 5 "Food" "He said \"hi\"" "" ""] (by decide)

/-- Counterexample to claim C7 as stated: a category containing a comma is
written unquoted, so the exported row splits into five fields and the
original (date, category, amount, description) tuple is not reconstructed. -/
theorem csv_roundtrip_cex :
    parseCSV (exportToCSV [Expense.mk "1" "2024-01-01" 5 "Food,Drink" "Lunch" "" ""])
      = [["Date", "Category", "Amount", "Description"],
          ["2024-01-01", "Food", "Drink", "5", "Lunch"]]
    ∧ [["Date", "Category", "Amount", "Description"],
        ["2024-01-01", "Food", "Drink", "5", "Lunch"]]
      ≠ [["Date", "Category", "Amount", "Description"],
          ["2024-01-01", "Food,Drink", "5", "Lunch"]] := by
  constructor
  · decide
  · decide
